import Mathlib

/-!
Verification of the ILI9481 GPIO parallel-bus driver.

Shallow embedding of the driver's core:
  * `src/src/bus/gpio_mmio.c` — LUT builder, 8-bit bus write, pixel streaming;
  * `src/src/display/ili9481.c` — CASET/PASET/RAMWR full-frame flush;
  * `src/src/display/framebuffer.c` — 32bpp→RGB565 conversion,
    nearest-neighbor scaling, pacing loop;
  * `src/include/ili9481_hw.h` — GPIO pin constants.

Machine integers are modelled as `Nat` with explicit `% 2^w` where the C
code's fixed-width conversions matter.
-/

set_option maxRecDepth 100000

namespace ILI9481

/-! ## Pin constants (src/include/ili9481_hw.h) -/

/-- GPIO line of the active-low hardware reset (`GPIO_RST`). -/
def GPIO_RST : Nat := 25

/-- GPIO line of the active-low chip select (`GPIO_CS`). -/
def GPIO_CS : Nat := 8

/-- GPIO line of the register-select / data-command line (`GPIO_DC`). -/
def GPIO_DC : Nat := 24

/-- GPIO line of the active-low write strobe (`GPIO_WR`). -/
def GPIO_WR : Nat := 23

/-- GPIO line of the active-low read strobe (`GPIO_RD`). -/
def GPIO_RD : Nat := 18

/-- The eight data-bus GPIO lines DB0–DB7, ordered by bit position
(`db_pins` in gpio_mmio.c, values `GPIO_DB0 … GPIO_DB7` from
ili9481_hw.h — the header spells the 8-entry array macro
`DATA_BUS_LO_PINS`; gpio_mmio.c's 8-bit mode uses exactly these lines,
as its own comments state). -/
def dbPin : Nat → Nat
  | 0 => 9
  | 1 => 11
  | 2 => 10
  | 3 => 22
  | 4 => 27
  | 5 => 17
  | 6 => 4
  | 7 => 3
  | _ => 0

/-- `1 << GPIO_WR`, the `wr_mask` field of `struct gpio_bus`. -/
def wr_mask : Nat := 1 <<< GPIO_WR

/-- `1 << GPIO_DC`, the `dc_mask` field of `struct gpio_bus`. -/
def dc_mask : Nat := 1 <<< GPIO_DC

/-- `1 << GPIO_RST`, the `rst_mask` field of `struct gpio_bus`. -/
def rst_mask : Nat := 1 <<< GPIO_RST

/-- `1 << GPIO_CS`, the `cs_mask` field of `struct gpio_bus`. -/
def cs_mask : Nat := 1 <<< GPIO_CS

/-- `1 << GPIO_RD`, the `rd_mask` field of `struct gpio_bus`. -/
def rd_mask : Nat := 1 <<< GPIO_RD

/-! ## Lookup-table builder (`gpio_build_luts`, gpio_mmio.c lines 136–151) -/

/-- One iteration of `gpio_build_luts`' inner loop: for byte value `val`,
fold over bit positions 0–7, adding `1 << db_pins[bit]` to the set mask
when bit `bit` of `val` is 1 and to the clear mask otherwise.  Returns the
`(lut_set[val], lut_clr[val])` pair. -/
def gpio_lut_entry (val : Nat) : Nat × Nat :=
  (List.range 8).foldl
    (fun sc bit =>
      if val &&& (1 <<< bit) ≠ 0 then (sc.1 ||| (1 <<< dbPin bit), sc.2)
      else (sc.1, sc.2 ||| (1 <<< dbPin bit)))
    (0, 0)

/-- `lut_set[val]` of `struct gpio_bus`, as built by `gpio_build_luts`. -/
def lut_set (val : Nat) : Nat := (gpio_lut_entry val).1

/-- `lut_clr[val]` of `struct gpio_bus`, as built by `gpio_build_luts`. -/
def lut_clr (val : Nat) : Nat := (gpio_lut_entry val).2

/-- The full mask of the eight data-bus pins: OR of `1 << db_pins[bit]`
for bit = 0…7. -/
def dbFullMask : Nat :=
  (List.range 8).foldl (fun m bit => m ||| (1 <<< dbPin bit)) 0

/-! ## GPIO set/clear register semantics

The BCM283x `GPSET0` register sets every pin whose bit is 1 in the stored
word and leaves the rest alone; `GPCLR0` clears every such pin.  On the
32-bit pin-level state these act as OR and AND-NOT (32-bit complement). -/

/-- Pin-level state after storing mask `m` to `GPSET0`. -/
def gpset (s m : Nat) : Nat := s ||| m

/-- Pin-level state after storing mask `m` to `GPCLR0`: bits in `m` are
cleared (AND with the 32-bit complement of `m`). -/
def gpclr (s m : Nat) : Nat := s &&& (0xFFFFFFFF ^^^ m)

/-- Decoding of a pin-level state back into an 8-bit bus value: bit `i`
of the result is the level of pin `db_pins[i]`.  This is the spec's
abstraction function for the round-trip law (§8 of the spec); it does not
appear in the C source. -/
def decodeBus (s : Nat) : Nat :=
  (if s.testBit (dbPin 0) then 1 else 0)
  + ((if s.testBit (dbPin 1) then 1 else 0) <<< 1)
  + ((if s.testBit (dbPin 2) then 1 else 0) <<< 2)
  + ((if s.testBit (dbPin 3) then 1 else 0) <<< 3)
  + ((if s.testBit (dbPin 4) then 1 else 0) <<< 4)
  + ((if s.testBit (dbPin 5) then 1 else 0) <<< 5)
  + ((if s.testBit (dbPin 6) then 1 else 0) <<< 6)
  + ((if s.testBit (dbPin 7) then 1 else 0) <<< 7)

/-! ### LUT bit-level facts -/

/-- Pointwise content of the LUT masks: at data pin `db_pins[i]`, the set
mask carries bit `i` of the byte and the clear mask its negation. -/
theorem lut_testBit_pin (n : Nat) (hn : n < 256) (i : Nat) (hi : i < 8) :
    (lut_set n).testBit (dbPin i) = n.testBit i ∧
    (lut_clr n).testBit (dbPin i) = !n.testBit i := by
  have H : ∀ (m : Fin 256) (j : Fin 8),
      (lut_set m.val).testBit (dbPin j.val) = m.val.testBit j.val ∧
      (lut_clr m.val).testBit (dbPin j.val) = !m.val.testBit j.val := by decide
  exact H ⟨n, hn⟩ ⟨i, hi⟩

/-- Both LUT masks are subsets of the full data-pin mask. -/
theorem lut_subset_full (n : Nat) (hn : n < 256) :
    lut_set n &&& dbFullMask = lut_set n ∧
    lut_clr n &&& dbFullMask = lut_clr n := by
  have H : ∀ m : Fin 256,
      lut_set m.val &&& dbFullMask = lut_set m.val ∧
      lut_clr m.val &&& dbFullMask = lut_clr m.val := by decide
  exact H ⟨n, hn⟩

/-- The bit of `dbFullMask` at any position outside the eight data pins
is 0. -/
theorem dbFullMask_testBit_off (p : Nat)
    (hp : p ∉ ([9, 11, 10, 22, 27, 17, 4, 3] : List Nat)) :
    dbFullMask.testBit p = false := by
  by_cases h32 : p < 32
  · have H : ∀ q : Fin 32,
        q.val ∉ ([9, 11, 10, 22, 27, 17, 4, 3] : List Nat) →
        dbFullMask.testBit q.val = false := by decide
    exact H ⟨p, h32⟩ hp
  · have hlt : dbFullMask < 2 ^ p :=
      lt_of_lt_of_le (show dbFullMask < 2 ^ 32 by decide)
        (Nat.pow_le_pow_right (by norm_num) (by omega))
    exact Nat.testBit_lt_two_pow hlt

/-- Neither LUT mask has a bit outside the eight data pins. -/
theorem lut_testBit_off (n : Nat) (hn : n < 256) (p : Nat)
    (hp : p ∉ ([9, 11, 10, 22, 27, 17, 4, 3] : List Nat)) :
    (lut_set n).testBit p = false ∧ (lut_clr n).testBit p = false := by
  obtain ⟨hs, hc⟩ := lut_subset_full n hn
  constructor
  · calc (lut_set n).testBit p
        = (lut_set n &&& dbFullMask).testBit p := by rw [hs]
      _ = ((lut_set n).testBit p && dbFullMask.testBit p) := Nat.testBit_land ..
      _ = false := by rw [dbFullMask_testBit_off p hp, Bool.and_false]
  · calc (lut_clr n).testBit p
        = (lut_clr n &&& dbFullMask).testBit p := by rw [hc]
      _ = ((lut_clr n).testBit p && dbFullMask.testBit p) := Nat.testBit_land ..
      _ = false := by rw [dbFullMask_testBit_off p hp, Bool.and_false]

/-- C1: for every byte value, the set and clear LUT masks are disjoint and
together cover exactly the full mask of the eight data-bus pins. -/
theorem lut_masks_partition (n : Fin 256) :
    (lut_set n.val ||| lut_clr n.val) = dbFullMask ∧
    (lut_set n.val &&& lut_clr n.val) = 0 := by
  revert n
  decide

/-- The all-ones 32-bit word has bit `p` set exactly when `p < 32`. -/
theorem ones32_testBit (p : Nat) :
    (0xFFFFFFFF : Nat).testBit p = decide (p < 32) := by
  by_cases h32 : p < 32
  · have H : ∀ q : Fin 32, (0xFFFFFFFF : Nat).testBit q.val = true := by decide
    simpa [h32] using H ⟨p, h32⟩
  · have hlt : (0xFFFFFFFF : Nat) < 2 ^ p :=
      lt_of_lt_of_le (show (0xFFFFFFFF : Nat) < 2 ^ 32 by norm_num)
        (Nat.pow_le_pow_right (by norm_num) (by omega))
    simp [Nat.testBit_lt_two_pow hlt, h32]

/-- Every data pin lies below position 32. -/
theorem dbPin_lt32 (i : Nat) (hi : i < 8) : dbPin i < 32 := by
  have H : ∀ j : Fin 8, dbPin j.val < 32 := by decide
  exact H ⟨i, hi⟩

/-- The pin level produced by applying a byte's LUT masks — store
`lut_set[n]` to GPSET0, then `lut_clr[n]` to GPCLR0 — carries bit `i` of
the byte at pin `db_pins[i]`, whatever the prior register state was. -/
theorem applied_testBit_pin (base n : Nat) (hn : n < 256) (i : Nat) (hi : i < 8) :
    (gpclr (gpset base (lut_set n)) (lut_clr n)).testBit (dbPin i)
      = n.testBit i := by
  obtain ⟨hset, hclr⟩ := lut_testBit_pin n hn i hi
  have hone : (0xFFFFFFFF : Nat).testBit (dbPin i) = true := by
    rw [ones32_testBit]
    simp [dbPin_lt32 i hi]
  unfold gpclr gpset
  rw [Nat.testBit_land, Nat.testBit_lor, Nat.testBit_xor, hset, hclr, hone]
  cases hb : base.testBit (dbPin i) <;> cases hm : n.testBit i <;> rfl

/-- Recomposing a byte from its low eight bits gives the byte back. -/
theorem byte_recompose (n : Fin 256) :
    (if n.val.testBit 0 then 1 else 0)
    + ((if n.val.testBit 1 then 1 else 0) <<< 1)
    + ((if n.val.testBit 2 then 1 else 0) <<< 2)
    + ((if n.val.testBit 3 then 1 else 0) <<< 3)
    + ((if n.val.testBit 4 then 1 else 0) <<< 4)
    + ((if n.val.testBit 5 then 1 else 0) <<< 5)
    + ((if n.val.testBit 6 then 1 else 0) <<< 6)
    + ((if n.val.testBit 7 then 1 else 0) <<< 7) = n.val := by
  revert n
  decide

/-- C2: applying the LUT masks for byte `n` over any base register state
and decoding the resulting data-pin levels yields `n` (round-trip law). -/
theorem lut_roundtrip (base : Nat) (n : Fin 256) :
    decodeBus (gpclr (gpset base (lut_set n.val)) (lut_clr n.val)) = n.val := by
  unfold decodeBus
  rw [applied_testBit_pin base n.val n.isLt 0 (by norm_num),
    applied_testBit_pin base n.val n.isLt 1 (by norm_num),
    applied_testBit_pin base n.val n.isLt 2 (by norm_num),
    applied_testBit_pin base n.val n.isLt 3 (by norm_num),
    applied_testBit_pin base n.val n.isLt 4 (by norm_num),
    applied_testBit_pin base n.val n.isLt 5 (by norm_num),
    applied_testBit_pin base n.val n.isLt 6 (by norm_num),
    applied_testBit_pin base n.val n.isLt 7 (by norm_num)]
  exact byte_recompose n

/-! ## The 8-bit bus write (`bus_write8`, gpio_mmio.c lines 166–174)

`bus_write8` performs four MMIO stores in order:
  1. `GPSET0 ← lut_set[val]`   (place data, set half)
  2. `GPCLR0 ← lut_clr[val]`   (place data, clear half)
  3. `GPCLR0 ← wr_mask`        (assert /WR low)
  4. `GPSET0 ← wr_mask`        (release /WR high; panel latches)
The `dmb()` between 3 and 4 has no effect on the final pin levels. -/

/-- Final 32-bit pin-level state after `bus_write8(bus, val)` starting
from pin state `base`.  The `% 256` models the `uint8_t` parameter. -/
def bus_write8_state (base val : Nat) : Nat :=
  gpset (gpclr (gpclr (gpset base (lut_set (val % 256))) (lut_clr (val % 256))) wr_mask) wr_mask

/-- The combined single-bit masks of the four control lines other than
the write strobe: DC, CS, RST and RD. -/
def otherCtrlMask : Nat := dc_mask ||| cs_mask ||| rst_mask ||| rd_mask

/-- Neither LUT mask touches the DC, CS, RST or RD control lines. -/
theorem lut_avoids_ctrl (n : Nat) (hn : n < 256) :
    lut_set n &&& otherCtrlMask = 0 ∧ lut_clr n &&& otherCtrlMask = 0 := by
  have H : ∀ m : Fin 256,
      lut_set m.val &&& otherCtrlMask = 0 ∧
      lut_clr m.val &&& otherCtrlMask = 0 := by decide
  exact H ⟨n, hn⟩

/-- The write-strobe mask bit at position `p` is 1 exactly when `p` is
the WR pin. -/
theorem wr_mask_testBit (p : Nat) : wr_mask.testBit p = decide (p = GPIO_WR) := by
  by_cases h32 : p < 32
  · have H : ∀ q : Fin 32, wr_mask.testBit q.val = decide (q.val = GPIO_WR) := by decide
    exact H ⟨p, h32⟩
  · have hlt : wr_mask < 2 ^ p :=
      lt_of_lt_of_le (show wr_mask < 2 ^ 32 by decide)
        (Nat.pow_le_pow_right (by norm_num) (by omega))
    have h2 : p ≠ GPIO_WR := by unfold GPIO_WR; omega
    simp [Nat.testBit_lt_two_pow hlt, h2]

/-- C10: a single 8-bit bus write only touches the eight data pins and
the WR strobe: the LUT masks contain no DC/CS/RST/RD bit, every pin
outside the data bus and WR has the same level after the write as
before, and WR — cleared and then set back by the strobe pulse — ends
high. -/
theorem bus_write8_frame (val base p : Nat) (hbase : base < 2 ^ 32)
    (hdb : p ∉ ([9, 11, 10, 22, 27, 17, 4, 3] : List Nat)) (hwr : p ≠ GPIO_WR) :
    (bus_write8_state base val).testBit p = base.testBit p ∧
    (bus_write8_state base val).testBit GPIO_WR = true ∧
    lut_set (val % 256) &&& otherCtrlMask = 0 ∧
    lut_clr (val % 256) &&& otherCtrlMask = 0 := by
  have hv : val % 256 < 256 := Nat.mod_lt _ (by norm_num)
  obtain ⟨hs0, hc0⟩ := lut_testBit_off (val % 256) hv p hdb
  obtain ⟨ha1, ha2⟩ := lut_avoids_ctrl (val % 256) hv
  have hwr_high : (bus_write8_state base val).testBit GPIO_WR = true := by
    unfold bus_write8_state gpset
    rw [Nat.testBit_lor, show wr_mask.testBit GPIO_WR = true from by decide,
      Bool.or_true]
  refine ⟨?_, hwr_high, ha1, ha2⟩
  have hwrp : wr_mask.testBit p = false := by
    rw [wr_mask_testBit]; simp [hwr]
  unfold bus_write8_state gpset gpclr
  simp only [Nat.testBit_lor, Nat.testBit_land, Nat.testBit_xor, hs0, hc0,
    hwrp, ones32_testBit]
  by_cases h32 : p < 32
  · simp [h32]
  · have hb : base.testBit p = false :=
      Nat.testBit_lt_two_pow
        (lt_of_lt_of_le hbase (Nat.pow_le_pow_right (by norm_num) (by omega)))
    simp [h32, hb]

/-- Witness for `bus_write8_frame`: concrete byte 0xA5, a base state with
DC and CS high, checked at the DC pin. -/
theorem bus_write8_frame_witness :
    (bus_write8_state ((1 <<< 24) ||| (1 <<< 8)) 0xA5).testBit 24
        = ((1 <<< 24) ||| (1 <<< 8) : Nat).testBit 24 ∧
    (bus_write8_state ((1 <<< 24) ||| (1 <<< 8)) 0xA5).testBit GPIO_WR = true ∧
    lut_set (0xA5 % 256) &&& otherCtrlMask = 0 ∧
    lut_clr (0xA5 % 256) &&& otherCtrlMask = 0 :=
  bus_write8_frame 0xA5 ((1 <<< 24) ||| (1 <<< 8)) 24 (by decide)
    (by decide) (by decide)

/-! ## Command/data/pixel protocol layer (gpio_mmio.c lines 272–304)

A bus cycle is one `bus_write8` call: the DC level during the cycle and
the byte latched by the panel.  `gpio_write_cmd` drives DC low, writes the
byte and restores DC high (data level); `gpio_write_data` writes with DC
unchanged; `gpio_write_pixels` splits each 16-bit RGB565 pixel into two
cycles, high byte first.  Functions thread the DC level explicitly. -/

/-- One bus cycle: the DC level while the byte was latched (`true` =
data level, `false` = command level), and the latched byte. -/
structure Cyc where
  dc : Bool
  byte : Nat
  deriving DecidableEq, Repr

/-- The cycle emitted by `bus_write8(bus, v)` with the DC line at level
`dc`.  The `% 256` models the `uint8_t` parameter. -/
def bus_write8_cyc (dc : Bool) (v : Nat) : Cyc := ⟨dc, v % 256⟩

/-- `gpio_write_cmd(bus, c)`: DC driven low, one bus write of `c`, DC
driven back high.  Returns the emitted cycles and the DC level at exit
(always high / data level). -/
def gpio_write_cmd (c : Nat) : List Cyc × Bool :=
  ([bus_write8_cyc false c], true)

/-- `gpio_write_data(bus, d)`: one bus write of `d` with DC unchanged. -/
def gpio_write_data (dc : Bool) (d : Nat) : List Cyc × Bool :=
  ([bus_write8_cyc dc d], dc)

/-- `gpio_write_pixels(bus, pixels, count)`: for `i < count`, read
`pixels[i]` (a `uint16_t`, modelled by `% 65536`) and emit two bus writes,
`px >> 8` then `px & 0xFF`, with DC unchanged.  `count` beyond the end of
the buffer reads nothing (the C code would read out of bounds; theorems
assume `count ≤ pixels.length`). -/
def gpio_write_pixels (dc : Bool) : List Nat → Nat → List Cyc
  | _, 0 => []
  | [], _ + 1 => []
  | px :: rest, n + 1 =>
      bus_write8_cyc dc ((px % 65536) >>> 8) ::
      bus_write8_cyc dc ((px % 65536) &&& 0xFF) ::
      gpio_write_pixels dc rest n

/-- Closed form of the pixel stream, stated from the spec: two cycles per
pixel, most-significant byte first, DC constant. -/
def pixel_cycles (dc : Bool) : List Nat → List Cyc
  | [] => []
  | px :: rest =>
      ⟨dc, (px % 65536) >>> 8⟩ :: ⟨dc, (px % 65536) &&& 0xFF⟩ :: pixel_cycles dc rest

/-- The high and low byte of a `uint16_t` are below 256, so the
`uint8_t` conversion inside `bus_write8` leaves them unchanged. -/
theorem pixel_bytes_lt (px : Nat) :
    (px % 65536) >>> 8 < 256 ∧ (px % 65536) &&& 0xFF < 256 := by
  constructor
  · have h : px % 65536 < 65536 := Nat.mod_lt _ (by norm_num)
    have hdiv : (px % 65536) >>> 8 = px % 65536 / 2 ^ 8 :=
      Nat.shiftRight_eq_div_pow ..
    norm_num at hdiv
    omega
  · exact lt_of_le_of_lt Nat.and_le_right (by norm_num)

/-- The pixel stream equals its closed form on the first `count` pixels. -/
theorem gpio_write_pixels_eq (dc : Bool) (pixels : List Nat) (count : Nat)
    (hc : count ≤ pixels.length) :
    gpio_write_pixels dc pixels count = pixel_cycles dc (pixels.take count) := by
  induction pixels generalizing count with
  | nil =>
    have h0 : count = 0 := by simpa using hc
    subst h0
    rfl
  | cons px rest ih =>
    cases count with
    | zero => rfl
    | succ n =>
      obtain ⟨h1, h2⟩ := pixel_bytes_lt px
      have ih' := ih n (by simpa using hc)
      simp [gpio_write_pixels, List.take_succ_cons, pixel_cycles, bus_write8_cyc,
        Nat.mod_eq_of_lt h1, Nat.mod_eq_of_lt h2, ih']

/-- Every cycle of the pixel stream carries the DC level the stream was
entered with. -/
theorem gpio_write_pixels_dc_const (dc : Bool) (pixels : List Nat) (count : Nat)
    (c : Cyc) (hc : c ∈ gpio_write_pixels dc pixels count) : c.dc = dc := by
  induction pixels generalizing count with
  | nil =>
    cases count <;> simp [gpio_write_pixels] at hc
  | cons px rest ih =>
    cases count with
    | zero => simp [gpio_write_pixels] at hc
    | succ n =>
      simp only [gpio_write_pixels, List.mem_cons] at hc
      rcases hc with h | h | h
      · rw [h]; rfl
      · rw [h]; rfl
      · exact ih n h

/-- C3: streaming pixels over the 8-bit bus emits, per 16-bit pixel in
order, exactly two bus cycles with the most-significant byte first —
pixel 0xABCD becomes the write sequence 0xAB, 0xCD — and the DC line
stays at data level throughout. -/
theorem stream_pixels_msb_first (pixels : List Nat) (count : Nat)
    (hc : count ≤ pixels.length) :
    gpio_write_pixels true pixels count = pixel_cycles true (pixels.take count) ∧
    gpio_write_pixels true [0xABCD] 1 = [⟨true, 0xAB⟩, ⟨true, 0xCD⟩] ∧
    ∀ c ∈ gpio_write_pixels true pixels count, c.dc = true := by
  refine ⟨gpio_write_pixels_eq true pixels count hc, by decide, ?_⟩
  intro c hmem
  exact gpio_write_pixels_dc_const true pixels count c hmem

/-- Witness for `stream_pixels_msb_first` at the spec's example pixel
0xABCD. -/
theorem stream_pixels_msb_first_witness :
    gpio_write_pixels true [0xABCD] 1 = pixel_cycles true ([0xABCD].take 1) ∧
    gpio_write_pixels true [0xABCD] 1 = [⟨true, 0xAB⟩, ⟨true, 0xCD⟩] ∧
    ∀ c ∈ gpio_write_pixels true [0xABCD] 1, c.dc = true :=
  stream_pixels_msb_first [0xABCD] 1 (by norm_num)

/-! ## Full-frame flush (`ili9481_flush_full`, ili9481.c lines 109–130) -/

/-- ILI9481 column-address-set command byte. -/
def ILI9481_CASET : Nat := 0x2A

/-- ILI9481 page-address-set command byte. -/
def ILI9481_PASET : Nat := 0x2B

/-- ILI9481 memory-write command byte. -/
def ILI9481_RAMWR : Nat := 0x2C

/-- Cycle trace of `ili9481_flush_full(bus, width, height, pixels)`
starting with the DC line at level `dc0`: CASET with the window
[0, width−1], PASET with [0, height−1], RAMWR, then `width * height`
pixels streamed.  `width` and `height` are `uint16_t`; the subtraction is
C `int` arithmetic, which on `1 ≤ width ≤ 0xFFFF` agrees with `Nat`
subtraction. -/
def ili9481_flush_full (dc0 : Bool) (width height : Nat) (pixels : List Nat) :
    List Cyc :=
  let (t1, dc1) := gpio_write_cmd ILI9481_CASET
  let (t2, dc2) := gpio_write_data dc1 0x00
  let (t3, dc3) := gpio_write_data dc2 0x00
  let (t4, dc4) := gpio_write_data dc3 ((width - 1) >>> 8)
  let (t5, dc5) := gpio_write_data dc4 ((width - 1) &&& 0xFF)
  let (t6, dc6) := gpio_write_cmd ILI9481_PASET
  let (t7, dc7) := gpio_write_data dc6 0x00
  let (t8, dc8) := gpio_write_data dc7 0x00
  let (t9, dc9) := gpio_write_data dc8 ((height - 1) >>> 8)
  let (t10, dc10) := gpio_write_data dc9 ((height - 1) &&& 0xFF)
  let (t11, dc11) := gpio_write_cmd ILI9481_RAMWR
  have := (dc0, dc5, dc10)
  t1 ++ t2 ++ t3 ++ t4 ++ t5 ++ t6 ++ t7 ++ t8 ++ t9 ++ t10 ++ t11 ++
    gpio_write_pixels dc11 pixels (width * height)

/-- Streaming `n` black pixels yields `2 n` data-mode cycles all latching
byte 0. -/
theorem pixel_cycles_black (n : Nat) :
    pixel_cycles true (List.replicate n 0) =
      List.replicate (2 * n) ⟨true, 0⟩ := by
  induction n with
  | zero => rfl
  | succ m ih =>
    have h2 : 2 * (m + 1) = (2 * m) + 1 + 1 := by omega
    simp [List.replicate_succ, pixel_cycles, ih, h2]

/-- C4: the full-frame flush emits exactly the CASET command with
parameters 0x00 0x00 (w−1)>>8 (w−1)&0xFF, the PASET command with
parameters 0x00 0x00 (h−1)>>8 (h−1)&0xFF, the RAMWR command, and then
w·h pixels as 2·w·h data-mode cycles; for 480×320 all-black it produces
CASET [0,479], PASET [0,319], RAMWR and 307200 data cycles latching
0x00. -/
theorem flush_full_wire (dc0 : Bool) (width height : Nat) (pixels : List Nat)
    (hw1 : 0 < width) (hw2 : width < 65536)
    (hh1 : 0 < height) (hh2 : height < 65536)
    (hlen : width * height ≤ pixels.length) :
    ili9481_flush_full dc0 width height pixels =
      ⟨false, ILI9481_CASET⟩ :: ⟨true, 0⟩ :: ⟨true, 0⟩ ::
      ⟨true, (width - 1) >>> 8⟩ :: ⟨true, (width - 1) &&& 0xFF⟩ ::
      ⟨false, ILI9481_PASET⟩ :: ⟨true, 0⟩ :: ⟨true, 0⟩ ::
      ⟨true, (height - 1) >>> 8⟩ :: ⟨true, (height - 1) &&& 0xFF⟩ ::
      ⟨false, ILI9481_RAMWR⟩ ::
      pixel_cycles true (pixels.take (width * height)) ∧
    ili9481_flush_full true 480 320 (List.replicate (480 * 320) 0) =
      ⟨false, ILI9481_CASET⟩ :: ⟨true, 0⟩ :: ⟨true, 0⟩ ::
      ⟨true, 0x01⟩ :: ⟨true, 0xDF⟩ ::
      ⟨false, ILI9481_PASET⟩ :: ⟨true, 0⟩ :: ⟨true, 0⟩ ::
      ⟨true, 0x01⟩ :: ⟨true, 0x3F⟩ ::
      ⟨false, ILI9481_RAMWR⟩ ::
      List.replicate 307200 ⟨true, 0x00⟩ := by
  have main : ∀ (d : Bool) (w h : Nat) (ps : List Nat),
      0 < w → w < 65536 → 0 < h → h < 65536 → w * h ≤ ps.length →
      ili9481_flush_full d w h ps =
        ⟨false, ILI9481_CASET⟩ :: ⟨true, 0⟩ :: ⟨true, 0⟩ ::
        ⟨true, (w - 1) >>> 8⟩ :: ⟨true, (w - 1) &&& 0xFF⟩ ::
        ⟨false, ILI9481_PASET⟩ :: ⟨true, 0⟩ :: ⟨true, 0⟩ ::
        ⟨true, (h - 1) >>> 8⟩ :: ⟨true, (h - 1) &&& 0xFF⟩ ::
        ⟨false, ILI9481_RAMWR⟩ ::
        pixel_cycles true (ps.take (w * h)) := by
    intro d w h ps hw1' hw2' hh1' hh2' hlen'
    have hwb : (w - 1) >>> 8 < 256 ∧ (w - 1) &&& 0xFF < 256 := by
      have hmod : (w - 1) % 65536 = w - 1 := Nat.mod_eq_of_lt (by omega)
      have := pixel_bytes_lt (w - 1)
      rwa [hmod] at this
    have hhb : (h - 1) >>> 8 < 256 ∧ (h - 1) &&& 0xFF < 256 := by
      have hmod : (h - 1) % 65536 = h - 1 := Nat.mod_eq_of_lt (by omega)
      have := pixel_bytes_lt (h - 1)
      rwa [hmod] at this
    simp [ili9481_flush_full, gpio_write_cmd, gpio_write_data, bus_write8_cyc,
      gpio_write_pixels_eq true ps (w * h) hlen',
      Nat.mod_eq_of_lt hwb.1, Nat.mod_eq_of_lt hwb.2,
      Nat.mod_eq_of_lt hhb.1, Nat.mod_eq_of_lt hhb.2,
      show ILI9481_CASET % 256 = ILI9481_CASET from rfl,
      show ILI9481_PASET % 256 = ILI9481_PASET from rfl,
      show ILI9481_RAMWR % 256 = ILI9481_RAMWR from rfl]
  refine ⟨main dc0 width height pixels hw1 hw2 hh1 hh2 hlen, ?_⟩
  have h480 := main true 480 320 (List.replicate (480 * 320) 0)
    (by norm_num) (by norm_num) (by norm_num) (by norm_num)
    (by rw [List.length_replicate])
  rw [h480, List.take_replicate, Nat.min_self, pixel_cycles_black,
    show (2 * (480 * 320) : Nat) = 307200 from by norm_num,
    show ((480 - 1 : Nat) >>> 8) = 0x01 from by decide,
    show ((480 - 1 : Nat) &&& 0xFF) = 0xDF from by decide,
    show ((320 - 1 : Nat) >>> 8) = 0x01 from by decide,
    show ((320 - 1 : Nat) &&& 0xFF) = 0x3F from by decide]

/-- Witness for `flush_full_wire`: a 2×1 frame of one red and one blue
pixel. -/
theorem flush_full_wire_witness :
    (ili9481_flush_full true 2 1 [0xF800, 0x001F] =
      ⟨false, ILI9481_CASET⟩ :: ⟨true, 0⟩ :: ⟨true, 0⟩ ::
      ⟨true, (2 - 1) >>> 8⟩ :: ⟨true, (2 - 1) &&& 0xFF⟩ ::
      ⟨false, ILI9481_PASET⟩ :: ⟨true, 0⟩ :: ⟨true, 0⟩ ::
      ⟨true, (1 - 1) >>> 8⟩ :: ⟨true, (1 - 1) &&& 0xFF⟩ ::
      ⟨false, ILI9481_RAMWR⟩ ::
      pixel_cycles true ([0xF800, 0x001F].take (2 * 1)) ∧
    ili9481_flush_full true 480 320 (List.replicate (480 * 320) 0) =
      ⟨false, ILI9481_CASET⟩ :: ⟨true, 0⟩ :: ⟨true, 0⟩ ::
      ⟨true, 0x01⟩ :: ⟨true, 0xDF⟩ ::
      ⟨false, ILI9481_PASET⟩ :: ⟨true, 0⟩ :: ⟨true, 0⟩ ::
      ⟨true, 0x01⟩ :: ⟨true, 0x3F⟩ ::
      ⟨false, ILI9481_RAMWR⟩ ::
      List.replicate 307200 ⟨true, 0x00⟩) :=
  flush_full_wire true 2 1 [0xF800, 0x001F]
    (by norm_num) (by norm_num) (by norm_num) (by norm_num) (by norm_num)

/-! ## Nearest-neighbor scaler (`scale_frame`, framebuffer.c lines 93–136)

The 16bpp branch: for each destination row `dy < th` the source row is
`sy = dy * sh / th` (C `uint32_t` division, i.e. truncation) and the row
pointer is `src + sy * stride`; for each destination column `dx < tw` the
sampled element is `srow[sx]` with `sx = dx * sw / tw`, i.e. the 16-bit
word at byte offset `sy * stride + 2 * sx`.  Source memory is abstracted
as `src_read : byte offset → 16-bit word`.  Destination row `dy` is
written at `scale_buf[dy * tw + dx]`; the buffer is modelled as the
concatenation of the rows in order. -/

/-- Concatenation of the first `th` rows produced by `f`, in order —
the outer `dy` loop of `scale_frame` appending each destination row. -/
def concatRows (f : Nat → List Nat) : Nat → List Nat
  | 0 => []
  | th + 1 => concatRows f th ++ f th

/-- The 16bpp branch of `scale_frame`: the full destination buffer. -/
def scale_frame16 (src_read : Nat → Nat) (sw sh stride tw th : Nat) : List Nat :=
  concatRows
    (fun dy => (List.range tw).map
      (fun dx => src_read (dy * sh / th * stride + 2 * (dx * sw / tw))))
    th

/-- Concatenating `th` rows of constant length `k` gives `th * k`
elements. -/
theorem concatRows_length (f : Nat → List Nat) (k : Nat)
    (hk : ∀ dy, (f dy).length = k) (th : Nat) :
    (concatRows f th).length = th * k := by
  induction th with
  | zero => simp [concatRows]
  | succ t ih =>
    simp [concatRows, ih, hk t, Nat.succ_mul]

/-- Element `dy * k + dx` of the concatenation of constant-length rows is
element `dx` of row `dy`. -/
theorem concatRows_getElem (f : Nat → List Nat) (k : Nat)
    (hk : ∀ dy, (f dy).length = k) (th dy dx : Nat)
    (hdy : dy < th) (hdx : dx < k) :
    (concatRows f th)[dy * k + dx]? = (f dy)[dx]? := by
  induction th with
  | zero => omega
  | succ t ih =>
    by_cases hlt : dy < t
    · have hidx : dy * k + dx < (concatRows f t).length := by
        rw [concatRows_length f k hk t]
        calc dy * k + dx < dy * k + k := by omega
          _ = (dy + 1) * k := by ring
          _ ≤ t * k := Nat.mul_le_mul_right k (by omega)
      rw [concatRows, List.getElem?_append, if_pos hidx]
      exact ih hlt
    · have hdyt : dy = t := by omega
      subst hdyt
      have hlen : (concatRows f dy).length = dy * k := concatRows_length f k hk dy
      rw [concatRows, List.getElem?_append, if_neg (by omega), hlen]
      congr 1
      omega

/-- C5: destination pixel `(dx, dy)` of the 16bpp nearest-neighbor scaler
samples the source word at row `dy * sh / th`, column `dx * sw / tw`
(integer truncation) — for a 640-wide source scaled to 320 columns,
destination column 0 reads source column 0 and destination column 319
reads source column 638 (byte offset `2 * 638`), not 639. -/
theorem scale_frame_nearest (src_read : Nat → Nat)
    (sw sh stride tw th dx dy : Nat) (hdx : dx < tw) (hdy : dy < th) :
    (scale_frame16 src_read sw sh stride tw th)[dy * tw + dx]? =
      some (src_read (dy * sh / th * stride + 2 * (dx * sw / tw))) ∧
    (∀ f : Nat → Nat, (scale_frame16 f 640 480 1280 320 480)[(0 : Nat)]? =
      some (f 0)) ∧
    (∀ f : Nat → Nat, (scale_frame16 f 640 480 1280 320 480)[(319 : Nat)]? =
      some (f (2 * 638))) := by
  have main : ∀ (g : Nat → Nat) (sw' sh' stride' tw' th' dx' dy' : Nat),
      dx' < tw' → dy' < th' →
      (scale_frame16 g sw' sh' stride' tw' th')[dy' * tw' + dx']? =
        some (g (dy' * sh' / th' * stride' + 2 * (dx' * sw' / tw'))) := by
    intro g sw' sh' stride' tw' th' dx' dy' hdx' hdy'
    unfold scale_frame16
    rw [concatRows_getElem _ tw' (fun d => by simp) th' dy' dx' hdy' hdx']
    simp [List.getElem?_range hdx']
  refine ⟨main src_read sw sh stride tw th dx dy hdx hdy, ?_, ?_⟩
  · intro f
    have h := main f 640 480 1280 320 480 0 0 (by norm_num) (by norm_num)
    norm_num at h
    simpa using h
  · intro f
    have h := main f 640 480 1280 320 480 319 0 (by norm_num) (by norm_num)
    norm_num at h
    simpa using h

/-- Witness for `scale_frame_nearest` at destination pixel (319, 0) of a
640×480 → 320×480 downscale with the identity source. -/
theorem scale_frame_nearest_witness :
    (scale_frame16 (fun off => off) 640 480 1280 320 480)[(0 : Nat) * 320 + 319]? =
      some ((fun off : Nat => off) (0 * 480 / 480 * 1280 + 2 * (319 * 640 / 320))) ∧
    (∀ f : Nat → Nat, (scale_frame16 f 640 480 1280 320 480)[(0 : Nat)]? =
      some (f 0)) ∧
    (∀ f : Nat → Nat, (scale_frame16 f 640 480 1280 320 480)[(319 : Nat)]? =
      some (f (2 * 638))) :=
  scale_frame_nearest (fun off => off) 640 480 1280 320 480 319 0
    (by norm_num) (by norm_num)

/-! ## 32bpp → RGB565 conversion (`pixel32_to_rgb565`, framebuffer.c
lines 72–87) -/

/-- `pixel32_to_rgb565`: extract each channel of `px` by shift-and-mask
using the source's declared (offset, length), normalise red and blue to 5
bits and green to 6 bits by shifting by the length difference, and pack
as `r:g:b` = 5:6:5.  The final `% 65536` models the `uint16_t` cast of
the return value. -/
def pixel32_to_rgb565 (px r_off r_len g_off g_len b_off b_len : Nat) : Nat :=
  let r := (px >>> r_off) &&& ((1 <<< r_len) - 1)
  let g := (px >>> g_off) &&& ((1 <<< g_len) - 1)
  let b := (px >>> b_off) &&& ((1 <<< b_len) - 1)
  let r := if r_len > 5 then r >>> (r_len - 5)
           else if r_len < 5 then r <<< (5 - r_len) else r
  let g := if g_len > 6 then g >>> (g_len - 6)
           else if g_len < 6 then g <<< (6 - g_len) else g
  let b := if b_len > 5 then b >>> (b_len - 5)
           else if b_len < 5 then b <<< (5 - b_len) else b
  ((r <<< 11) ||| (g <<< 5) ||| b) % 65536

/-- Channel rescaling as the spec words it: right-shift by the length
difference when the source field is wider than the destination field,
left-shift when it is narrower (no rounding). -/
def rescale_channel (v fromLen toLen : Nat) : Nat :=
  if fromLen > toLen then v >>> (fromLen - toLen) else v <<< (toLen - fromLen)

/-- Channel extraction as the spec words it: shift down by the field
offset and mask to the field length. -/
def extract_channel (px off len : Nat) : Nat :=
  (px >>> off) &&& ((1 <<< len) - 1)

/-- The spec-side conversion: extract, rescale to 5/6/5, pack. -/
def rgb565_spec (px r_off r_len g_off g_len b_off b_len : Nat) : Nat :=
  (rescale_channel (extract_channel px r_off r_len) r_len 5 <<< 11) |||
  (rescale_channel (extract_channel px g_off g_len) g_len 6 <<< 5) |||
  rescale_channel (extract_channel px b_off b_len) b_len 5

/-- An extracted channel is below `2 ^ len`. -/
theorem extract_channel_lt (px off len : Nat) :
    extract_channel px off len < 2 ^ len := by
  unfold extract_channel
  have h1 : (1 <<< len : Nat) = 2 ^ len := Nat.one_shiftLeft len
  have h2 : (px >>> off) &&& ((1 <<< len) - 1) ≤ (1 <<< len) - 1 :=
    Nat.and_le_right
  have h3 : (0 : Nat) < 2 ^ len := Nat.pos_pow_of_pos len (by norm_num)
  omega

/-- Rescaling a channel below `2 ^ fromLen` yields a value below
`2 ^ toLen`. -/
theorem rescale_channel_lt (v fromLen toLen : Nat) (hv : v < 2 ^ fromLen) :
    rescale_channel v fromLen toLen < 2 ^ toLen := by
  unfold rescale_channel
  by_cases h : fromLen > toLen
  · rw [if_pos h, Nat.shiftRight_eq_div_pow]
    have hpow : 2 ^ fromLen = 2 ^ (fromLen - toLen) * 2 ^ toLen := by
      rw [← pow_add]
      congr 1
      omega
    have hpos : (0 : Nat) < 2 ^ (fromLen - toLen) := Nat.pos_pow_of_pos _ (by norm_num)
    rw [Nat.div_lt_iff_lt_mul hpos]
    calc v < 2 ^ fromLen := hv
      _ = 2 ^ toLen * 2 ^ (fromLen - toLen) := by rw [hpow]; ring
  · rw [if_neg h, Nat.shiftLeft_eq]
    calc v * 2 ^ (toLen - fromLen) < 2 ^ fromLen * 2 ^ (toLen - fromLen) :=
          mul_lt_mul_of_pos_right hv (Nat.pos_pow_of_pos _ (by norm_num))
      _ = 2 ^ toLen := by rw [← pow_add]; congr 1; omega

/-- The packed 5:6:5 word is below `2 ^ 16`. -/
theorem rgb565_spec_lt (px r_off r_len g_off g_len b_off b_len : Nat) :
    rgb565_spec px r_off r_len g_off g_len b_off b_len < 2 ^ 16 := by
  unfold rgb565_spec
  have hr := rescale_channel_lt (extract_channel px r_off r_len) r_len 5
    (extract_channel_lt px r_off r_len)
  have hg := rescale_channel_lt (extract_channel px g_off g_len) g_len 6
    (extract_channel_lt px g_off g_len)
  have hb := rescale_channel_lt (extract_channel px b_off b_len) b_len 5
    (extract_channel_lt px b_off b_len)
  have h1 : rescale_channel (extract_channel px r_off r_len) r_len 5 <<< 11 < 2 ^ 16 := by
    rw [Nat.shiftLeft_eq]
    calc _ < 2 ^ 5 * 2 ^ 11 :=
          mul_lt_mul_of_pos_right hr (Nat.pos_pow_of_pos _ (by norm_num))
      _ = 2 ^ 16 := by norm_num
  have h2 : rescale_channel (extract_channel px g_off g_len) g_len 6 <<< 5 < 2 ^ 16 := by
    rw [Nat.shiftLeft_eq]
    calc _ < 2 ^ 6 * 2 ^ 5 :=
          mul_lt_mul_of_pos_right hg (Nat.pos_pow_of_pos _ (by norm_num))
      _ = 2 ^ 11 := by norm_num
      _ < 2 ^ 16 := by norm_num
  have h3 : rescale_channel (extract_channel px b_off b_len) b_len 5 < 2 ^ 16 :=
    lt_trans hb (by norm_num)
  exact lt_of_lt_of_le (Nat.or_lt_two_pow (Nat.or_lt_two_pow h1 h2) h3) (le_refl _)

/-- C6: the implemented conversion agrees with the spec's
extract/rescale/pack description for every pixel and every channel
layout; in particular with red offset 16, length 8 (XRGB8888) a source
red value 0xFF quantizes to the 5-bit value 0x1F. -/
theorem pixel32_to_rgb565_spec (px r_off r_len g_off g_len b_off b_len : Nat) :
    pixel32_to_rgb565 px r_off r_len g_off g_len b_off b_len =
      rgb565_spec px r_off r_len g_off g_len b_off b_len ∧
    pixel32_to_rgb565 0x00FF0000 16 8 8 8 0 8 >>> 11 = 0x1F := by
  constructor
  · have hle : ∀ len top v : Nat, (if len > top then v >>> (len - top)
          else if len < top then v <<< (top - len) else v) =
        rescale_channel v len top := by
      intro len top v
      unfold rescale_channel
      by_cases h1 : len > top
      · rw [if_pos h1, if_pos h1]
      · rw [if_neg h1, if_neg h1]
        by_cases h2 : len < top
        · rw [if_pos h2]
        · rw [if_neg h2, show top - len = 0 by omega, Nat.shiftLeft_zero]
    have hmod : rgb565_spec px r_off r_len g_off g_len b_off b_len < 65536 := by
      have := rgb565_spec_lt px r_off r_len g_off g_len b_off b_len
      omega
    calc pixel32_to_rgb565 px r_off r_len g_off g_len b_off b_len
        = rgb565_spec px r_off r_len g_off g_len b_off b_len % 65536 := by
          simp only [pixel32_to_rgb565, rgb565_spec, extract_channel, hle]
      _ = rgb565_spec px r_off r_len g_off g_len b_off b_len :=
          Nat.mod_eq_of_lt hmod
  · decide

/-! ## Pacing-loop deadline arithmetic (`fb_flush_loop`, framebuffer.c
lines 236–277)

After each flush the loop runs
  `next_tick.tv_nsec += frame_ns;`
  `while (next_tick.tv_nsec >= 1000000000L) { tv_nsec -= 1e9; tv_sec++; }`
with `frame_ns = 1000000000 / fps`.  A timespec is modelled as a
`(seconds, nanoseconds)` pair of naturals. -/

/-- The normalisation `while` loop of `fb_flush_loop`: subtract one
second's worth of nanoseconds and carry into the seconds field until the
nanoseconds field is below 10⁹. -/
def tick_normalize (sec nsec : Nat) : Nat × Nat :=
  if h : 1000000000 ≤ nsec then tick_normalize (sec + 1) (nsec - 1000000000)
  else (sec, nsec)
termination_by nsec
decreasing_by omega

/-- One deadline advance: `tv_nsec += frame_ns` followed by the carry
loop. -/
def fb_advance_tick (t : Nat × Nat) (frame_ns : Nat) : Nat × Nat :=
  tick_normalize t.1 (t.2 + frame_ns)

/-- The deadline after `n` advances from `start`. -/
def fb_tick_after (start : Nat × Nat) (frame_ns : Nat) : Nat → Nat × Nat
  | 0 => start
  | n + 1 => fb_advance_tick (fb_tick_after start frame_ns n) frame_ns

/-- The carry loop preserves the total number of nanoseconds and leaves
the nanoseconds field normalized. -/
theorem tick_normalize_spec (nsec sec : Nat) :
    (tick_normalize sec nsec).1 * 1000000000 + (tick_normalize sec nsec).2 =
      sec * 1000000000 + nsec ∧
    (tick_normalize sec nsec).2 < 1000000000 := by
  induction nsec using Nat.strong_induction_on generalizing sec with
  | _ nsec ih =>
    by_cases h : 1000000000 ≤ nsec
    · have hrec : tick_normalize sec nsec =
          tick_normalize (sec + 1) (nsec - 1000000000) := by
        rw [tick_normalize, dif_pos h]
      rw [hrec]
      obtain ⟨h1, h2⟩ := ih (nsec - 1000000000) (by omega) (sec + 1)
      exact ⟨by omega, h2⟩
    · have hrec : tick_normalize sec nsec = (sec, nsec) := by
        rw [tick_normalize, dif_neg h]
      rw [hrec]
      exact ⟨rfl, by omega⟩

/-- C7: with the per-frame interval `10⁹ / fps` nanoseconds, each advance
keeps the timespec normalized (`0 ≤ tv_nsec < 10⁹`) and after `n`
advances the deadline equals the start time plus exactly `n` intervals,
independent of how long each iteration's work took. -/
theorem pacing_deadline_exact (fps : Nat) (start : Nat × Nat) (n : Nat)
    (hfps : 0 < fps) (hstart : start.2 < 1000000000) :
    (fb_tick_after start (1000000000 / fps) n).2 < 1000000000 ∧
    (fb_tick_after start (1000000000 / fps) n).1 * 1000000000 +
        (fb_tick_after start (1000000000 / fps) n).2 =
      start.1 * 1000000000 + start.2 + n * (1000000000 / fps) := by
  induction n with
  | zero => exact ⟨hstart, by simp [fb_tick_after]⟩
  | succ m ih =>
    obtain ⟨ih1, ih2⟩ := ih
    have hadv := tick_normalize_spec
      ((fb_tick_after start (1000000000 / fps) m).2 + 1000000000 / fps)
      (fb_tick_after start (1000000000 / fps) m).1
    constructor
    · exact hadv.2
    · have h1 := hadv.1
      have hmul : (m + 1) * (1000000000 / fps) =
          m * (1000000000 / fps) + 1000000000 / fps := by ring
      simp only [fb_tick_after, fb_advance_tick]
      omega

/-- Witness for `pacing_deadline_exact`: 30 FPS, start at 0.5 s, three
frames. -/
theorem pacing_deadline_exact_witness :
    (fb_tick_after (0, 500000000) (1000000000 / 30) 3).2 < 1000000000 ∧
    (fb_tick_after (0, 500000000) (1000000000 / 30) 3).1 * 1000000000 +
        (fb_tick_after (0, 500000000) (1000000000 / 30) 3).2 =
      0 * 1000000000 + 500000000 + 3 * (1000000000 / 30) :=
  pacing_deadline_exact 30 (0, 500000000) 3 (by norm_num) (by norm_num)

/-! ## Flush-loop control flow (`fb_flush_loop`, framebuffer.c lines
248–278)

The loop body is
  `while (*running) { clock_nanosleep(…abs…); scale_frame(…);`
  `  ili9481_flush_full(…); …advance deadline…; }`
so the run flag is read once per iteration in the `while` condition — at
the TOP of the iteration, before the absolute-time wait — and a false
reading exits before any further wait/convert/flush.  The trace of
observable events is modelled against the successive values returned by
the reads of `*running`. -/

/-- Observable events of one `fb_flush_loop` execution. -/
inductive LoopEv where
  /-- A read of the `running` flag returning the given value. -/
  | poll : Bool → LoopEv
  /-- The `clock_nanosleep` absolute-time wait. -/
  | wait : LoopEv
  /-- The `scale_frame` conversion. -/
  | convert : LoopEv
  /-- The `ili9481_flush_full` call. -/
  | flush : LoopEv
  deriving DecidableEq, Repr

/-- Event trace of `fb_flush_loop` when the successive reads of the run
flag return the values in `flags` (the loop consumes one value per
`while`-condition evaluation; a run that never observes `false` is a
prefix of the trace of its `flags` extended by `false`). -/
def fb_loop_trace : List Bool → List LoopEv
  | [] => []
  | f :: rest =>
      if f then
        LoopEv.poll true :: LoopEv.wait :: LoopEv.convert :: LoopEv.flush ::
          fb_loop_trace rest
      else [LoopEv.poll false]

/-- Is the event a poll of the run flag? -/
def is_poll : LoopEv → Bool
  | LoopEv.poll _ => true
  | _ => false

/-- The claim's reading of the poll position: every poll of the run flag
is immediately preceded by the absolute-time wait (first helper: scan
with the previous event at hand). -/
def polls_after_wait_from (prev : LoopEv) : List LoopEv → Bool
  | [] => true
  | e :: rest =>
      ((!is_poll e) || (prev == LoopEv.wait)) && polls_after_wait_from e rest

/-- The claim's reading of the poll position: every poll of the run flag
comes right after the wait (in particular no poll can be the very first
event). -/
def polls_after_wait : List LoopEv → Bool
  | [] => true
  | e :: rest => (!is_poll e) && polls_after_wait_from e rest

/-- Every `poll true` is immediately followed by the wait: the flag is
read at the top of the iteration, before the absolute-time wait. -/
def poll_true_then_wait : List LoopEv → Bool
  | LoopEv.poll true :: rest =>
      (match rest with
       | LoopEv.wait :: _ => poll_true_then_wait rest
       | _ => false)
  | _ :: rest => poll_true_then_wait rest
  | [] => true

/-- A `poll false` event, if present, is the last event of the trace: the
loop exits immediately on observing false, with no further wait, convert
or flush. -/
def stops_on_false : List LoopEv → Bool
  | [] => true
  | [LoopEv.poll false] => true
  | LoopEv.poll false :: _ :: _ => false
  | _ :: rest => stops_on_false rest

/-- Counterexample to C8 as stated: in the code the poll happens before
the wait, not between the wait and the conversion — already with flag
sequence [true, false] the very first event is a poll not preceded by any
wait. -/
theorem loop_poll_not_after_wait :
    polls_after_wait (fb_loop_trace [true, false]) = false := by decide

/-- C8 (amended): in every iteration the run flag is polled exactly once,
at the top of the iteration BEFORE the absolute-time wait (every observed
`true` is followed immediately by the wait); when `false` is observed the
loop exits at once, without flushing a partial final frame; polls number
one per completed iteration plus the final false observation; and every
iteration that waited also flushed exactly once. -/
theorem loop_polls_once_and_stops (flags : List Bool) :
    poll_true_then_wait (fb_loop_trace flags) = true ∧
    stops_on_false (fb_loop_trace flags) = true ∧
    (fb_loop_trace flags).countP is_poll =
      (fb_loop_trace flags).countP (· == LoopEv.wait) +
      (fb_loop_trace flags).countP (· == LoopEv.poll false) ∧
    (fb_loop_trace flags).countP (· == LoopEv.flush) =
      (fb_loop_trace flags).countP (· == LoopEv.wait) := by
  induction flags with
  | nil => refine ⟨rfl, rfl, rfl, rfl⟩
  | cons f rest ih =>
    obtain ⟨ih1, ih2, ih3, ih4⟩ := ih
    cases f
    · refine ⟨rfl, rfl, rfl, rfl⟩
    · refine ⟨?_, ?_, ?_, ?_⟩
      · simpa [fb_loop_trace, poll_true_then_wait] using ih1
      · simpa [fb_loop_trace, stops_on_false] using ih2
      · simp only [fb_loop_trace, if_pos, List.countP_cons]
        simp [is_poll] at ih3 ⊢
        omega
      · simp only [fb_loop_trace, if_pos, List.countP_cons]
        simp at ih4 ⊢
        omega

/-! ## Bus open error paths (`gpio_bus_open`, gpio_mmio.c lines 180–238)

`gpio_bus_open` acquires, in order: (1) the platform probe
(`detect_pi_model`, no resource), (2) the handle allocation (`calloc`),
(3) the `/dev/gpiomem` file descriptor (`open`), (4) the register window
(`mmap`).  Each failing step releases what the same attempt had already
acquired: open-failure frees the handle; mmap-failure closes the
descriptor and frees the handle.  The environment records which of the
four steps would succeed; the result records the returned handle and the
resources still held after return. -/

/-- Outcome of each fallible step of one `gpio_bus_open` attempt. -/
structure OpenEnv where
  /-- `detect_pi_model` accepts the platform. -/
  probe_ok : Bool
  /-- `calloc` returns a handle. -/
  alloc_ok : Bool
  /-- `open("/dev/gpiomem")` succeeds. -/
  gpiomem_ok : Bool
  /-- `mmap` of the register window succeeds. -/
  mmap_ok : Bool
  deriving DecidableEq, Repr

/-- Resources held after `gpio_bus_open` returns. -/
structure OpenRes where
  /-- The `struct gpio_bus` allocation is live. -/
  allocated : Bool
  /-- The `/dev/gpiomem` descriptor is open. -/
  fd_live : Bool
  /-- The register window is mapped. -/
  mapped : Bool
  deriving DecidableEq, Repr

/-- `gpio_bus_open`, step by step: returns whether a handle was returned
(`true` = non-NULL) and the resources held at return.  Mirrors the C
control flow: probe failure returns before anything is acquired;
`calloc` failure returns with nothing held; `open` failure frees the
handle; `mmap` failure closes the descriptor and frees the handle; on
success all three resources are held by the returned handle. -/
def gpio_bus_open (e : OpenEnv) : Bool × OpenRes :=
  if !e.probe_ok then (false, ⟨false, false, false⟩)
  else if !e.alloc_ok then (false, ⟨false, false, false⟩)
  else
    -- `bus` is allocated from here on
    if !e.gpiomem_ok then
      -- `free(bus)`
      (false, ⟨false, false, false⟩)
    else
      -- `bus->fd` is open from here on
      if !e.mmap_ok then
        -- `close(bus->fd); free(bus)`
        (false, ⟨false, false, false⟩)
      else
        (true, ⟨true, true, true⟩)

/-- C9: whenever `gpio_bus_open` fails — probe rejection, allocation
failure, `/dev/gpiomem` open failure or register-window mmap failure —
it returns with no resource of that attempt still held: nothing mapped,
no descriptor open, no handle memory allocated. -/
theorem gpio_bus_open_clean_fail (e : OpenEnv)
    (hfail : (gpio_bus_open e).1 = false) :
    (gpio_bus_open e).2 = ⟨false, false, false⟩ := by
  obtain ⟨p, a, g, m⟩ := e
  revert hfail
  cases p <;> cases a <;> cases g <;> cases m <;> decide

/-- Witness for `gpio_bus_open_clean_fail`: the mmap-failure path. -/
theorem gpio_bus_open_clean_fail_witness :
    (gpio_bus_open ⟨true, true, true, false⟩).2 = ⟨false, false, false⟩ :=
  gpio_bus_open_clean_fail ⟨true, true, true, false⟩ (by decide)

end ILI9481
